import Mathlib

/-!
Verification of the asset-embedding build utility of the pdf-generator-template
repository (source file: src/health-report/build-embedded.js).

The script is embedded shallowly:

* document text and file paths are lists of characters;
* the filesystem is a finite map from absolute paths to files, where each
  file carries its content and a readability flag (an unreadable file models
  a file whose readFileSync call throws); a separate list of paths records
  where writeFileSync throws;
* the two regular expressions of the script (the img-tag pattern and the
  stylesheet-link pattern) are compiled by hand into specialized
  backtracking matchers with exactly the JavaScript semantics (leftmost
  match, greedy quantifiers with backtracking, case-insensitive flags);
* String.prototype.replace is modelled including its substitution
  patterns (dollar escapes) and, for the global stylesheet regex, its
  replace-all behaviour computed over the original string;
* the stateful exec loop of processHtmlFile is modelled with the regex
  lastIndex threaded explicitly and a fuel parameter, since the source
  loop has no a-priori termination bound;
* JavaScript exceptions that the source does not catch (readFileSync of a
  document, writeFileSync of an output) are modelled with Except; an
  uncaught exception aborts the run, mirroring the absence of any
  try/catch in processHtmlFile and main.

Bytes of a file are modelled as the code points of its characters (the
repository only processes ASCII assets); Node buffer byte access and utf8
text access then agree.
-/

namespace BuildEmbedded

/-- Convert a string literal to the character-list representation used
throughout the development. -/
def lc (s : String) : List Char := s.data

/-- Single-quote character (written via its code point). -/
def sq : Char := Char.ofNat 39

/-- ASCII lower-casing, as performed by toLowerCase and by the i flag of
the regular expressions on ASCII input. -/
def lowerChar (c : Char) : Char :=
  if 'A' ≤ c ∧ c ≤ 'Z' then Char.ofNat (c.toNat + 32) else c

/-- JavaScript whitespace class (the characters relevant to ASCII input,
plus NBSP), used by the regex escape for whitespace and by trim. -/
def isWs (c : Char) : Bool :=
  c = ' ' ∨ c = Char.ofNat 9 ∨ c = Char.ofNat 10 ∨ c = Char.ofNat 11 ∨
  c = Char.ofNat 12 ∨ c = Char.ofNat 13 ∨ c = Char.ofNat 160

/-- Case-insensitive prefix test (ASCII canonicalization). -/
def ciPrefix : List Char → List Char → Bool
  | [], _ => true
  | _ :: _, [] => false
  | p :: ps, c :: cs => lowerChar p = lowerChar c && ciPrefix ps cs

/-- Length of the maximal prefix whose characters satisfy p (the text a
greedy character-class star consumes before backtracking). -/
def maxRun (p : Char → Bool) (s : List Char) : Nat :=
  (s.takeWhile p).length

/-- Try f at n, n-1, ..., 0 and return the first success: the search
order of a greedy quantifier backtracking from its maximal extent. -/
def searchDown (f : Nat → Option α) : Nat → Option α
  | 0 => f 0
  | n + 1 =>
    match f (n + 1) with
    | some r => some r
    | none => searchDown f n

/-- Index of the first occurrence of pat in text (the search performed by
String.prototype.replace with a string pattern and by indexOf). -/
def indexOfSubAux (pat : List Char) : List Char → Nat → Option Nat
  | s, p =>
    if pat.isPrefixOf s then some p
    else
      match s with
      | [] => none
      | _ :: t => indexOfSubAux pat t (p + 1)

/-- First-occurrence index of a substring. -/
def indexOfSub (text pat : List Char) : Option Nat :=
  indexOfSubAux pat text 0

/-- GetSubstitution of the ECMAScript replace algorithm: expand the
dollar escapes of a replacement string.  matched is the matched text,
before and after are the portions of the original string around the
match, groups the capture list (empty for a string pattern). -/
def expandReplAux (matched before after : List Char) (groups : List (List Char)) :
    Nat → List Char → List Char
  | 0, s => s
  | _ + 1, [] => []
  | f + 1, c :: rest =>
    if c = '$' then
      match rest with
      | [] => ['$']
      | c2 :: rest2 =>
        if c2 = '$' then '$' :: expandReplAux matched before after groups f rest2
        else if c2 = '&' then
          matched ++ expandReplAux matched before after groups f rest2
        else if c2.toNat = 96 then
          before ++ expandReplAux matched before after groups f rest2
        else if c2 = sq then
          after ++ expandReplAux matched before after groups f rest2
        else if c2.isDigit then
          match rest2.head? with
          | some d =>
            if d.isDigit ∧ 1 ≤ (c2.toNat - 48) * 10 + (d.toNat - 48) ∧
                (c2.toNat - 48) * 10 + (d.toNat - 48) ≤ groups.length then
              groups.getD ((c2.toNat - 48) * 10 + (d.toNat - 48) - 1) [] ++
                expandReplAux matched before after groups f rest2.tail
            else if 1 ≤ c2.toNat - 48 ∧ c2.toNat - 48 ≤ groups.length then
              groups.getD (c2.toNat - 48 - 1) [] ++
                expandReplAux matched before after groups f rest2
            else '$' :: c2 :: expandReplAux matched before after groups f rest2
          | none =>
            if 1 ≤ c2.toNat - 48 ∧ c2.toNat - 48 ≤ groups.length then
              groups.getD (c2.toNat - 48 - 1) []
            else ['$', c2]
        else '$' :: c2 :: expandReplAux matched before after groups f rest2
    else c :: expandReplAux matched before after groups f rest

/-- GetSubstitution, entered with fuel equal to the replacement length:
every step consumes at least one character, so the fuel is never
exhausted. -/
def expandRepl (matched before after : List Char) (groups : List (List Char))
    (repl : List Char) : List Char :=
  expandReplAux matched before after groups repl.length repl

/-- htmlContent.replace(fullTag, newText) with a string pattern: replace
the first occurrence of pat (the text is unchanged when pat does not
occur), expanding dollar escapes in the replacement. -/
def replaceFirstStr (text pat repl : List Char) : List Char :=
  match indexOfSub text pat with
  | none => text
  | some i =>
    text.take i ++
      expandRepl pat (text.take i) (text.drop (i + pat.length)) [] repl ++
      text.drop (i + pat.length)

/-- The base64 alphabet. -/
def b64Alphabet : List Char :=
  lc "ABCDEFGHIJKLMNOPQRSTUVWXYZabcdefghijklmnopqrstuvwxyz0123456789+/"

/-- One base64 digit. -/
def b64c (n : Nat) : Char := b64Alphabet.getD n 'A'

/-- Buffer.prototype.toString with base64 encoding (RFC 4648 with
padding, as produced by Node). -/
def base64Encode : List Nat → List Char
  | [] => []
  | [a] => [b64c (a / 4), b64c (a % 4 * 16), '=', '=']
  | [a, b] => [b64c (a / 4), b64c (a % 4 * 16 + b / 16), b64c (b % 16 * 4), '=']
  | a :: b :: c :: rest =>
    b64c (a / 4) :: b64c (a % 4 * 16 + b / 16) :: b64c (b % 16 * 4 + c / 64) ::
      b64c (c % 64) :: base64Encode rest

/-- Split a path at slashes. -/
def splitSlash : List Char → List (List Char)
  | [] => [[]]
  | c :: rest =>
    if c = '/' then [] :: splitSlash rest
    else
      match splitSlash rest with
      | seg :: segs => (c :: seg) :: segs
      | [] => [[c]]

/-- Join path segments with slashes. -/
def joinSlash (segs : List (List Char)) : List Char :=
  List.intercalate ['/'] segs

/-- Normalize path segments with a stack: empty and dot segments vanish,
dot-dot pops (staying at the root when already there), as done by the
posix path.resolve normalization. -/
def normSegs (acc : List (List Char)) : List (List Char) → List (List Char)
  | [] => acc.reverse
  | seg :: rest =>
    if seg = [] ∨ seg = ['.'] then normSegs acc rest
    else if seg = ['.', '.'] then
      match acc with
      | _ :: acc2 => normSegs acc2 rest
      | [] => normSegs [] rest
    else normSegs (seg :: acc) rest

/-- path.resolve(dir, assetPath) for an absolute dir, as used by
resolveAssetPath: relative paths are taken against dir and the result is
normalized. -/
def pathResolve (dir asset : List Char) : List Char :=
  let full := if asset.head? = some '/' then asset else dir ++ '/' :: asset
  '/' :: joinSlash (normSegs [] (splitSlash full))

/-- posix path.dirname. -/
def dirname (p : List Char) : List Char :=
  let segs := splitSlash p
  if segs.length ≤ 1 then ['.']
  else
    let d := joinSlash segs.dropLast
    if d = [] then ['/'] else d

/-- posix path.extname: the suffix of the basename from its last dot,
empty when the basename has no dot or only a leading dot. -/
def extname (p : List Char) : List Char :=
  let base := (p.reverse.takeWhile (fun c => c ≠ '/')).reverse
  let tail := base.reverse.takeWhile (fun c => c ≠ '.')
  if tail.length = base.length then []
  else if tail.length + 1 = base.length then []
  else base.drop (base.length - tail.length - 1)

/-- path.extname(p).toLowerCase(). -/
def extnameLower (p : List Char) : List Char := (extname p).map lowerChar

/-- A file on disk: its content, and whether readFileSync succeeds on it. -/
structure FSFile where
  content : List Char
  readable : Bool
  deriving DecidableEq

/-- The filesystem: a finite map from absolute paths to files, plus the
set of output paths at which writeFileSync (or the mkdirSync of
ensureDir) throws. -/
structure FS where
  files : List (List Char × FSFile)
  writeFails : List (List Char)
  deriving DecidableEq

/-- fs.existsSync. -/
def existsPath (fs : FS) (p : List Char) : Bool :=
  (fs.files.lookup p).isSome

/-- fs.readFileSync, none when the call throws (missing or unreadable
file). -/
def readFile (fs : FS) (p : List Char) : Option (List Char) :=
  match fs.files.lookup p with
  | some f => if f.readable then some f.content else none
  | none => none

/-- getFileSize: statSync size, 0 when stat throws (missing file); file
content is ASCII so character count and byte count agree. -/
def getFileSize (fs : FS) (p : List Char) : Nat :=
  match fs.files.lookup p with
  | some f => f.content.length
  | none => 0

/-- Whether writeFileSync succeeds at a path. -/
def writeOk (fs : FS) (p : List Char) : Bool :=
  ¬ fs.writeFails.contains p

/-! ## The XML-declaration and comment patterns of readSvgContent -/

/-- Match the XML-declaration pattern (literal open marker, a greedy run
of non-question-mark characters, then the close marker; case-sensitive,
no flags beyond g) at the start of s, returning the match length. -/
def tryXmlDeclAt (s : List Char) : Option Nat :=
  if (lc "<?xml").isPrefixOf s then
    let r := s.drop 5
    let j := maxRun (fun c => c ≠ '?') r
    match r.drop j with
    | '?' :: '>' :: _ => some (5 + j + 2)
    | _ => none
  else none

/-- Match the comment pattern (lazy star: everything up to the first
close marker) at the start of s, returning the match length. -/
def tryCommentAt (s : List Char) : Option Nat :=
  if (lc "<!--").isPrefixOf s then
    match indexOfSub (s.drop 4) (lc "-->") with
    | some k => some (4 + k + 3)
    | none => none
  else none

/-- Global replace by the empty string: at each position, if the pattern
matches, drop the match and continue after it (as the JavaScript global
replace does, since an empty replacement inserts nothing); otherwise
keep the character.  Fuel is the input length; every pattern used
matches at least one character, so it suffices. -/
def scanRemoveAux (tryAt : List Char → Option Nat) : Nat → List Char → List Char
  | 0, s => s
  | _ + 1, [] => []
  | f + 1, c :: rest =>
    match tryAt (c :: rest) with
    | some n => scanRemoveAux tryAt f ((c :: rest).drop n)
    | none => c :: scanRemoveAux tryAt f rest

/-- Global removal of a pattern. -/
def scanRemove (tryAt : List Char → Option Nat) (s : List Char) : List Char :=
  scanRemoveAux tryAt s.length s

/-- String.prototype.trim. -/
def jsTrim (s : List Char) : List Char :=
  ((s.dropWhile isWs).reverse.dropWhile isWs).reverse

/-- The cleaning performed by readSvgContent on the file text: remove
XML declarations, then comments, then trim. -/
def svgClean (s : List Char) : List Char :=
  jsTrim (scanRemove tryCommentAt (scanRemove tryXmlDeclAt s))

/-! ## The img-tag pattern

The source pattern is, in order: the literal img-tag opener
(case-insensitive), one or more whitespace characters, an optional
capture of a run of non-gt characters ending in whitespace (group 1,
the attribute text before src), the literal src-equals
(case-insensitive), a quote, one or more non-quote characters (group 2,
the asset path), a quote, a run of non-gt characters (group 3, the
attribute text after src), and the closing gt.

The matcher below reproduces the backtracking search order of the
JavaScript engine.  The whitespace plus is taken at its maximal extent
only: whitespace characters are also non-gt characters, so any match
obtained with a shorter whitespace run is found first, with identical
extent and groups 2 and 3, by the maximal run with group 1 absorbing the
difference, which is the alternative the engine tries first. -/

/-- A successful match of the img pattern at a fixed position: the three
capture groups (group 1 empty when absent, as the source coalesces it
with the empty string) and the match length. -/
structure ImgM where
  g1 : List Char
  g2 : List Char
  g3 : List Char
  len : Nat
  deriving DecidableEq

/-- Match the part of the img pattern after the src-equals: quote, group
2 (one or more non-quote characters, greedy, necessarily ending at the
next quote), quote, group 3 (non-gt run), gt.  No backtracking can
change this decomposition, so it is computed directly.  Returns groups 2
and 3 and the number of characters consumed. -/
def matchSrcTail (s : List Char) : Option (List Char × List Char × Nat) :=
  match s with
  | [] => none
  | q :: rest =>
    if q = '"' ∨ q = sq then
      let g2 := rest.takeWhile (fun c => c ≠ '"' ∧ c ≠ sq)
      if g2.length = 0 then none
      else
        match (rest.drop g2.length).head? with
        | none => none
        | some q2 =>
          if q2 = '"' ∨ q2 = sq then
            let rest2 := rest.drop (g2.length + 1)
            let g3 := rest2.takeWhile (fun c => c ≠ '>')
            if (rest2.drop g3.length).head? = some '>' then
              some (g2, g3, 1 + g2.length + 1 + g3.length + 1)
            else none
          else none
    else none

/-- Attempt the img pattern at the start of s, with the backtracking
order of the engine: maximal whitespace run, then group 1 present with
its star from maximal extent downwards, then group 1 absent. -/
def imgTryAt (s : List Char) : Option ImgM :=
  if ciPrefix (lc "<img") s then
    let t := s.drop 4
    let k := maxRun isWs t
    if k = 0 then none
    else
      let u := t.drop k
      let try1 : Nat → Option ImgM := fun m =>
        if m = 0 then none
        else
          match (u.drop (m - 1)).head? with
          | some w =>
            if isWs w ∧ ciPrefix (lc "src=") (u.drop m) then
              match matchSrcTail (u.drop (m + 4)) with
              | some (g2, g3, tl) => some ⟨u.take m, g2, g3, 4 + k + m + 4 + tl⟩
              | none => none
            else none
          | none => none
      match searchDown try1 (maxRun (fun c => c ≠ '>') u) with
      | some r => some r
      | none =>
        if ciPrefix (lc "src=") u then
          match matchSrcTail (u.drop 4) with
          | some (g2, g3, tl) => some ⟨[], g2, g3, 4 + k + 4 + tl⟩
          | none => none
        else none
  else none

/-- A match of the img pattern inside a text: its start index, the full
matched text, and the three groups. -/
structure ImgMatch where
  index : Nat
  full : List Char
  g1 : List Char
  g2 : List Char
  g3 : List Char
  deriving DecidableEq

/-- Scan for the leftmost match at a position at or after p; s is the
suffix of the text starting at p. -/
def imgFindAux : List Char → Nat → Option (Nat × ImgM)
  | [], p =>
    match imgTryAt [] with
    | some r => some (p, r)
    | none => none
  | c :: rest, p =>
    match imgTryAt (c :: rest) with
    | some r => some (p, r)
    | none => imgFindAux rest (p + 1)

/-- regex.exec(text) with lastIndex i: the leftmost match starting at or
after i (none when i is past the end). -/
def imgFindFrom (text : List Char) (i : Nat) : Option ImgMatch :=
  match imgFindAux (text.drop i) i with
  | some (p, r) => some ⟨p, (text.drop p).take r.len, r.g1, r.g2, r.g3⟩
  | none => none

/-! ## The stylesheet-link pattern

In order: the literal link-tag opener (case-insensitive), one or more
whitespace characters, a non-gt run, the rel attribute with value
stylesheet between quotes (case-insensitive), a non-gt run, the href
attribute opener, a quote, group 1 (a non-quote run followed by the
stylesheet filename, case-insensitive), a quote, a non-gt run, optional
whitespace, an optional slash, and the closing gt.  As with the img
pattern, runs that are subsets of later runs are taken maximal first;
the tail after the closing quote (non-gt run, whitespace star, optional
slash, gt) matches exactly when the next gt terminates it, so it is
computed directly. -/

/-- A match of the stylesheet-link pattern at a fixed position: group 1
(the href value) and the match length. -/
structure CssM where
  g1 : List Char
  len : Nat
  deriving DecidableEq

/-- Attempt the stylesheet-link pattern at the start of s. -/
def cssTryAt (s : List Char) : Option CssM :=
  if ciPrefix (lc "<link") s then
    let t := s.drop 5
    let k := maxRun isWs t
    if k = 0 then none
    else
      let u1 := t.drop k
      let step3 : Nat → Option CssM := fun j1 =>
        if ciPrefix (lc "rel=") (u1.drop j1) then
          match (u1.drop (j1 + 4)).head? with
          | some q1 =>
            if (q1 = '"' ∨ q1 = sq) ∧
                ciPrefix (lc "stylesheet") (u1.drop (j1 + 5)) then
              match (u1.drop (j1 + 15)).head? with
              | some q2 =>
                if q2 = '"' ∨ q2 = sq then
                  let u2 := u1.drop (j1 + 16)
                  let step5 : Nat → Option CssM := fun j2 =>
                    if ciPrefix (lc "href=") (u2.drop j2) then
                      match (u2.drop (j2 + 5)).head? with
                      | some q3 =>
                        if q3 = '"' ∨ q3 = sq then
                          let v := u2.drop (j2 + 6)
                          let step7 : Nat → Option CssM := fun j3 =>
                            if ciPrefix (lc "styles.css") (v.drop j3) then
                              match (v.drop (j3 + 10)).head? with
                              | some q4 =>
                                if q4 = '"' ∨ q4 = sq then
                                  let rest := v.drop (j3 + 11)
                                  let rr := maxRun (fun c => c ≠ '>') rest
                                  match (rest.drop rr).head? with
                                  | some g =>
                                    if g = '>' then
                                      some ⟨v.take (j3 + 10),
                                        5 + k + j1 + 16 + j2 + 6 + j3 + 10 + 1 +
                                          rr + 1⟩
                                    else none
                                  | none => none
                                else none
                              | none => none
                            else none
                          searchDown step7
                            (maxRun (fun c => c ≠ '"' ∧ c ≠ sq) v)
                        else none
                      | none => none
                    else none
                  searchDown step5 (maxRun (fun c => c ≠ '>') u2)
                else none
              | none => none
            else none
          | none => none
        else none
      searchDown step3 (maxRun (fun c => c ≠ '>') u1)
  else none

/-- Scan for the leftmost stylesheet-link match at or after a position. -/
def cssFindAux : List Char → Nat → Option (Nat × CssM)
  | [], p =>
    match cssTryAt [] with
    | some r => some (p, r)
    | none => none
  | c :: rest, p =>
    match cssTryAt (c :: rest) with
    | some r => some (p, r)
    | none => cssFindAux rest (p + 1)

/-- Leftmost stylesheet-link match starting at or after i. -/
def cssFindFrom (text : List Char) (i : Nat) : Option (Nat × CssM) :=
  cssFindAux (text.drop i) i

/-- All matches of the global stylesheet-link regex, in order, each
search resuming after the previous match end, computed over the original
text as the replace algorithm does. -/
def cssFindAllAux (text : List Char) : Nat → Nat → List (Nat × CssM)
  | 0, _ => []
  | f + 1, pos =>
    match cssFindFrom text pos with
    | some (q, m) => (q, m) :: cssFindAllAux text f (q + m.len)
    | none => []

/-- All stylesheet-link matches of a text. -/
def cssFindAll (text : List Char) : List (Nat × CssM) :=
  cssFindAllAux text (text.length + 1) 0

/-- Splice the replacement (with its dollar escapes expanded per match)
over a list of matches of the original text. -/
def spliceMatches (orig repl : List Char) : Nat → List (Nat × CssM) → List Char
  | pos, [] => orig.drop pos
  | pos, (i, m) :: rest =>
    (orig.drop pos).take (i - pos) ++
      expandRepl ((orig.drop i).take m.len) (orig.take i)
        (orig.drop (i + m.len)) [m.g1] repl ++
      spliceMatches orig repl (i + m.len) rest

/-- htmlContent.replace(cssLinkRegex, inlineStyleTag): the regex has the
global flag, so every match found in the original text is replaced. -/
def cssReplaceAll (text repl : List Char) : List Char :=
  spliceMatches text repl 0 (cssFindAll text)

/-! ## Configuration constants and the per-document pipeline -/

/-- BASE_DIR: the directory of the build script (its absolute location
is irrelevant; one fixed absolute path stands for it). -/
def BASE_DIR : List Char := lc "/repo/src/health-report"

/-- OUTPUT_DIR. -/
def OUTPUT_DIR : List Char := BASE_DIR ++ lc "/embedded"

/-- STYLES_FILE. -/
def STYLES_FILE : List Char := BASE_DIR ++ lc "/styles.css"

/-- MAX_SVG_SIZE: the 5 KiB threshold for SVG inlining. -/
def MAX_SVG_SIZE : Nat := 5 * 1024

/-- The per-document statistics object of processHtmlFile. -/
structure Stats where
  svgsInlined : Nat
  pngsEncoded : Nat
  skipped : Nat
  errors : Nat
  cssInlined : Bool
  deriving DecidableEq

/-- The MIME table of imageToBase64: keyed on the lowercase extension,
defaulting to the png type. -/
def mimeFromExt (ext : List Char) : List Char :=
  if ext = lc ".jpg" ∨ ext = lc ".jpeg" then lc "image/jpeg"
  else if ext = lc ".svg" then lc "image/svg+xml"
  else if ext = lc ".gif" then lc "image/gif"
  else if ext = lc ".webp" then lc "image/webp"
  else lc "image/png"

/-- imageToBase64: read the bytes, base64-encode, and build the data
URI; none when the read throws (caught and reported by the source). -/
def imageToBase64 (fs : FS) (p : List Char) : Option (List Char) :=
  match readFile fs p with
  | some content =>
    some (lc "data:" ++ mimeFromExt (extnameLower p) ++ lc ";base64," ++
      base64Encode (content.map Char.toNat))
  | none => none

/-- readSvgContent: read the text and clean it; none when the read
throws (caught and reported by the source). -/
def readSvgContent (fs : FS) (p : List Char) : Option (List Char) :=
  match readFile fs p with
  | some content => some (svgClean content)
  | none => none

/-- resolveAssetPath: the asset path is taken against the directory of
the containing document; some p when the resolved path exists, none
otherwise. -/
def resolveAssetPath (fs : FS) (htmlFilePath assetPath : List Char) :
    Option (List Char) :=
  let resolved := pathResolve (dirname htmlFilePath) assetPath
  if existsPath fs resolved then some resolved else none

/-- inlineCss: read the shared stylesheet; none when the read throws. -/
def inlineCss (fs : FS) : Option (List Char) :=
  readFile fs STYLES_FILE

/-- The CSS phase of processHtmlFile: when the stylesheet-link pattern
matches and the stylesheet loads to truthy content, every match is
replaced by the inline style block and the cssInlined flag is set;
otherwise the text is returned unchanged with the flag clear. -/
def cssPhase (fs : FS) (text : List Char) : List Char × Bool :=
  if (cssFindFrom text 0).isSome then
    match inlineCss fs with
    | some css =>
      if css.isEmpty then (text, false)
      else
        (cssReplaceAll text (lc "<style>\n" ++ css ++ lc "\n    </style>"), true)
    | none => (text, false)
  else (text, false)

/-- The supported raster extensions. -/
def rasterExts : List (List Char) :=
  [lc ".png", lc ".jpg", lc ".jpeg", lc ".gif", lc ".webp"]

/-- The three outcomes the size policy can select for a resolved
asset. -/
inductive EncodingChoice where
  | inlineSvg
  | base64
  | skip
  deriving DecidableEq

/-- The size policy: which encoder the source selects for a resolved
asset, as a function of its lowercase extension and byte size alone. -/
def encodingChoice (ext : List Char) (size : Nat) : EncodingChoice :=
  if ext = lc ".svg" then
    if size ≤ MAX_SVG_SIZE then .inlineSvg else .base64
  else if rasterExts.contains ext then .base64
  else .skip

/-- The rewritten tag of the base64 branches: the tag opener, group 1,
the src attribute with the data URI between double quotes, group 3, and
the closing gt. -/
def base64Tag (g1 uri g3 : List Char) : List Char :=
  lc "<img " ++ g1 ++ lc "src=\"" ++ uri ++ lc "\"" ++ g3 ++ lc ">"

/-- One iteration of the while loop of processHtmlFile: run exec from
the current lastIndex and process the match.  Returns none when exec
returns null (the loop exits), otherwise the new text, the new
lastIndex, and the updated statistics. -/
def imgStep (fs : FS) (htmlFilePath text : List Char) (i : Nat) (st : Stats) :
    Option (List Char × Nat × Stats) :=
  match imgFindFrom text i with
  | none => none
  | some m =>
    let i2 := m.index + m.full.length
    if (lc "data:").isPrefixOf m.g2 then some (text, i2, st)
    else if (lc "http://").isPrefixOf m.g2 ∨ (lc "https://").isPrefixOf m.g2 then
      some (text, i2, st)
    else
      match resolveAssetPath fs htmlFilePath m.g2 with
      | none => some (text, i2, { st with errors := st.errors + 1 })
      | some rp =>
        let ext := extnameLower rp
        let fileSize := getFileSize fs rp
        if ext = lc ".svg" then
          if fileSize ≤ MAX_SVG_SIZE then
            match readSvgContent fs rp with
            | some c =>
              if c.isEmpty then some (text, i2, { st with errors := st.errors + 1 })
              else
                some (replaceFirstStr text m.full c, i2,
                  { st with svgsInlined := st.svgsInlined + 1 })
            | none => some (text, i2, { st with errors := st.errors + 1 })
          else
            match imageToBase64 fs rp with
            | some uri =>
              some (replaceFirstStr text m.full (base64Tag m.g1 uri m.g3), i2,
                { st with pngsEncoded := st.pngsEncoded + 1 })
            | none => some (text, i2, { st with errors := st.errors + 1 })
        else if rasterExts.contains ext then
          match imageToBase64 fs rp with
          | some uri =>
            some (replaceFirstStr text m.full (base64Tag m.g1 uri m.g3), i2,
              { st with pngsEncoded := st.pngsEncoded + 1 })
          | none => some (text, i2, { st with errors := st.errors + 1 })
        else some (text, i2, { st with skipped := st.skipped + 1 })

/-- The while loop of processHtmlFile, with explicit fuel: none means
the fuel ran out before exec returned null (the source loop has no
a-priori bound, and is in fact not always terminating). -/
def imgLoop (fs : FS) (htmlFilePath : List Char) :
    Nat → List Char → Nat → Stats → Option (List Char × Stats)
  | 0, _, _, _ => none
  | fuel + 1, text, i, st =>
    match imgStep fs htmlFilePath text i st with
    | none => some (text, st)
    | some (text2, i2, st2) => imgLoop fs htmlFilePath fuel text2 i2 st2

/-- processHtmlFile: read the document (readFileSync throws on failure:
the error value, uncaught in the source), run the CSS phase and the
image loop, then write the output (writeFileSync throws on failure).
The outer option is the loop fuel; the result carries the rewritten
text and the statistics. -/
def processHtmlFile (fs : FS) (fuel : Nat) (htmlFilePath outputPath : List Char) :
    Option (Except Unit (List Char × Stats)) :=
  match readFile fs htmlFilePath with
  | none => some (Except.error ())
  | some text0 =>
    let css := cssPhase fs text0
    match imgLoop fs htmlFilePath fuel css.1 0
        ⟨0, 0, 0, 0, css.2⟩ with
    | none => none
    | some (text2, st) =>
      if writeOk fs outputPath then some (Except.ok (text2, st))
      else some (Except.error ())

/-! ## The orchestrator -/

/-- The running totals of main. -/
structure Totals where
  cssInlined : Nat
  svgsInlined : Nat
  pngsEncoded : Nat
  skipped : Nat
  errors : Nat
  deriving DecidableEq

/-- Fold one document stats record into the totals, as main does. -/
def addStats (t : Totals) (s : Stats) : Totals :=
  { cssInlined := t.cssInlined + (if s.cssInlined then 1 else 0),
    svgsInlined := t.svgsInlined + s.svgsInlined,
    pngsEncoded := t.pngsEncoded + s.pngsEncoded,
    skipped := t.skipped + s.skipped,
    errors := t.errors + s.errors }

/-- The outcome of a run: the outputs written (in order), whether an
uncaught exception aborted the run (the node process then exits
nonzero without reaching the final report), the aggregate totals, and
the process exit code. -/
structure RunResult where
  written : List (List Char × List Char)
  crashed : Bool
  totals : Totals
  exitCode : Nat
  deriving DecidableEq

/-- The output path of a document: its path relative to BASE_DIR,
re-rooted under OUTPUT_DIR (the only case the source exercises is a
document below BASE_DIR). -/
def outPathFor (p : List Char) : List Char :=
  if (BASE_DIR ++ ['/']).isPrefixOf p then
    OUTPUT_DIR ++ ['/'] ++ p.drop (BASE_DIR.length + 1)
  else OUTPUT_DIR ++ ['/'] ++ p

/-- The forEach loop of main over the discovered documents: process
each file, write its output, and fold the statistics; an exception
thrown by processHtmlFile propagates (nothing catches it), aborting the
run with the remaining documents unprocessed.  After the loop, the
process exits 1 when the aggregate error count is positive and 0
otherwise. -/
def runBuildAux (fs : FS) (fuel : Nat) :
    List (List Char) → List (List Char × List Char) → Totals → Option RunResult
  | [], written, tot =>
    some { written := written, crashed := false, totals := tot,
           exitCode := if tot.errors > 0 then 1 else 0 }
  | f :: rest, written, tot =>
    match processHtmlFile fs fuel f (outPathFor f) with
    | none => none
    | some (Except.error _) =>
      some { written := written, crashed := true, totals := tot, exitCode := 1 }
    | some (Except.ok (text, st)) =>
      runBuildAux fs fuel rest (written ++ [(outPathFor f, text)]) (addStats tot st)

/-- Process a list of discovered documents. -/
def runBuild (fs : FS) (fuel : Nat) (files : List (List Char)) : Option RunResult :=
  runBuildAux fs fuel files [] ⟨0, 0, 0, 0, 0⟩

/-- The listing of a directory, for the recursive document discovery: a
sequence of entries, each a plain file or a subdirectory with its own
listing. -/
inductive FsForest where
  | nil
  | file (name : List Char) (rest : FsForest)
  | dir (name : List Char) (children : FsForest) (rest : FsForest)

/-- findHtmlFiles: every file below the directory whose name ends in the
html suffix, recursing into subdirectories at their position in the
listing but never entering the output directory. -/
def findHtmlFiles (pre : List Char) : FsForest → List (List Char)
  | FsForest.nil => []
  | FsForest.file name rest =>
    (if (lc ".html").isSuffixOf name then [pre ++ ['/'] ++ name] else []) ++
      findHtmlFiles pre rest
  | FsForest.dir name children rest =>
    (if pre ++ ['/'] ++ name = OUTPUT_DIR then []
     else findHtmlFiles (pre ++ ['/'] ++ name) children) ++
      findHtmlFiles pre rest

/-- main: the source reads no command-line arguments at all (argv is
passed here only to state that fact); it always discovers the documents
under BASE_DIR and processes them. -/
def main (_argv : List String) (fs : FS) (tree : FsForest) (fuel : Nat) :
    Option RunResult :=
  runBuild fs fuel (findHtmlFiles BASE_DIR tree)

/-! ## Concrete fixtures

Small filesystems and documents on which the claims are evaluated.  Each
fixture is named after the claim that uses it. -/

/-- C4 document path. -/
def c4path : List Char := BASE_DIR ++ lc "/c4.html"

/-- C4 document: a reference to a valid small SVG followed by a
reference to a missing raster file. -/
def c4doc : List Char := lc "<img src=\"ok.svg\"> <img src=\"missing.png\">"

/-- C4 filesystem: the document and the valid SVG; missing.png does not
exist. -/
def c4fs : FS :=
  ⟨[(c4path, ⟨c4doc, true⟩), (BASE_DIR ++ lc "/ok.svg", ⟨lc "<svg>ok</svg>", true⟩)], []⟩

/-- C5 document path. -/
def c5path : List Char := BASE_DIR ++ lc "/c5.html"

/-- C5 document: two stylesheet-link references. -/
def c5doc : List Char :=
  lc "<link rel=\"stylesheet\" href=\"styles.css\"><p>x</p><link rel=\"stylesheet\" href=\"styles.css\">"

/-- C5 filesystem parameterized by the stylesheet content. -/
def c5mkfs (css : List Char) : FS :=
  ⟨[(c5path, ⟨c5doc, true⟩), (STYLES_FILE, ⟨css, true⟩)], []⟩

/-- The inline style block spliced in for a given stylesheet content. -/
def c5sty (css : List Char) : List Char :=
  lc "<style>\n" ++ css ++ lc "\n    </style>"

/-- C6 document path. -/
def c6path : List Char := BASE_DIR ++ lc "/c6.html"

/-- C6 document: an img tag with two spaces after the tag name and the
src value between single quotes. -/
def c6doc : List Char :=
  lc "<img  src=" ++ [sq] ++ lc "pic.png" ++ [sq] ++ lc " alt=\"x\">"

/-- C6 filesystem: the document and the referenced raster file. -/
def c6fs : FS :=
  ⟨[(c6path, ⟨c6doc, true⟩), (BASE_DIR ++ lc "/pic.png", ⟨lc "abc", true⟩)], []⟩

/-- The data URI produced for the C6 raster file. -/
def c6uri : List Char := lc "data:image/png;base64,YWJj"

/-- The tag the source actually writes for the C6 document. -/
def c6result : List Char := lc "<img src=\"data:image/png;base64,YWJj\" alt=\"x\">"

/-- C7 document path. -/
def c7path : List Char := BASE_DIR ++ lc "/c7.html"

/-- C7 document: a single image reference to a valid small SVG. -/
def c7doc : List Char := lc "<img src=\"a.svg\">"

/-- C7 SVG content: a cleaned fragment that itself contains an image
reference (to a file that does not exist) beyond the extent of the
replaced tag. -/
def c7svg : List Char := lc "<svg>aaaaaaaaaaaaa</svg><img src=\"nope.png\">"

/-- C7 filesystem. -/
def c7fs : FS :=
  ⟨[(c7path, ⟨c7doc, true⟩), (BASE_DIR ++ lc "/a.svg", ⟨c7svg, true⟩)], []⟩

/-- C8 directory listing: one document under the template root. -/
def c8tree : FsForest := FsForest.file (lc "c8.html") FsForest.nil

/-- C8 filesystem. -/
def c8fs : FS := ⟨[(BASE_DIR ++ lc "/c8.html", ⟨lc "<p>a</p>", true⟩)], []⟩

/-- C9 document path. -/
def c9path : List Char := BASE_DIR ++ lc "/c9.html"

/-- C9 document: a stylesheet-link reference and nothing else. -/
def c9doc : List Char := lc "<link rel=\"stylesheet\" href=\"styles.css\">"

/-- C9 filesystem: the shared stylesheet exists but cannot be read. -/
def c9fs : FS := ⟨[(c9path, ⟨c9doc, true⟩), (STYLES_FILE, ⟨lc "p", false⟩)], []⟩

/-- C10 document paths. -/
def c10a : List Char := BASE_DIR ++ lc "/c10a.html"

/-- Second C10 document path. -/
def c10b : List Char := BASE_DIR ++ lc "/c10b.html"

/-- C10 filesystem: two valid documents, with writing of the first
document output failing. -/
def c10fs : FS :=
  ⟨[(c10a, ⟨lc "<p>a</p>", true⟩), (c10b, ⟨lc "<p>b</p>", true⟩)], [outPathFor c10a]⟩

/-! ## Counterexamples and concrete scenario theorems -/

/-- C4: the claim fails on the code.  In this document the missing
reference (which indeed does not resolve: first conjunct) follows a
valid small SVG.  Inlining the SVG shortens the text, but the regex
lastIndex is not adjusted, so the scan resumes past the start of the
shifted missing reference: the run records zero errors (not exactly
one), and exits 0 (not nonzero), with the missing tag left unchanged in
the output.  The source header states the script finds all asset
references; this silent skip contradicts it. -/
theorem c4_missing_reference_skipped_without_error :
    resolveAssetPath c4fs c4path (lc "missing.png") = none ∧
    runBuild c4fs 4 [c4path] =
      some ⟨[(OUTPUT_DIR ++ lc "/c4.html", lc "<svg>ok</svg> <img src=\"missing.png\">")],
        false, ⟨0, 1, 0, 0, 0⟩, 0⟩ := by
  exact ⟨by decide, by decide⟩

/-- C5 counterexample: the stylesheet-link pattern matches twice in this
document (first conjunct), and the source replaces both occurrences —
the global flag makes replace substitute every match — so no link
reference remains in the output (third conjunct), contradicting the
claim that exactly one link reference is replaced. -/
theorem c5_counterexample_both_links_replaced :
    (cssFindAll c5doc).length = 2 ∧
    cssPhase (c5mkfs (lc "p")) c5doc =
      (c5sty (lc "p") ++ lc "<p>x</p>" ++ c5sty (lc "p"), true) ∧
    indexOfSub (c5sty (lc "p") ++ lc "<p>x</p>" ++ c5sty (lc "p")) (lc "<link") =
      none := by
  exact ⟨by decide, by decide, by decide⟩

/-- C6 counterexample: rewriting the C6 document (src value between
single quotes, two spaces after the tag opener) produces a tag with a
single space and double quotes.  The second conjunct compares against
the tag in which only the src attribute value was changed and every
other character kept verbatim: the produced tag differs, refuting the
claim. -/
theorem c6_counterexample_tag_normalized :
    runBuild c6fs 3 [c6path] =
      some ⟨[(OUTPUT_DIR ++ lc "/c6.html", c6result)], false, ⟨0, 0, 1, 0, 0⟩, 0⟩ ∧
    c6result ≠ lc "<img  src=" ++ [sq] ++ c6uri ++ [sq] ++ lc " alt=\"x\">" := by
  exact ⟨by decide, by decide⟩

/-- C7 counterexample: the only image reference of the C7 document
resolves (first conjunct) and the missing path never occurs in the
input (second conjunct); yet after the SVG is inlined, the image
reference contained in the spliced fragment is re-processed as a fresh,
unresolved reference, recording an error — refuting the claim that no
substitution ever reintroduces text that is re-processed as a fresh,
unresolved image reference. -/
theorem c7_counterexample_reintroduced_reference :
    resolveAssetPath c7fs c7path (lc "a.svg") = some (BASE_DIR ++ lc "/a.svg") ∧
    indexOfSub c7doc (lc "nope.png") = none ∧
    runBuild c7fs 4 [c7path] =
      some ⟨[(OUTPUT_DIR ++ lc "/c7.html", c7svg)], false, ⟨0, 1, 0, 0, 1⟩, 1⟩ := by
  exact ⟨by decide, by decide, by decide⟩

/-- C8: main never reads its command-line arguments — the run is
identical for every argv (first conjunct), and in particular a help
flag does not print usage and exit without building: it performs the
full build of the template root (second conjunct, where the output file
is written). -/
theorem c8_cli_arguments_ignored :
    (∀ argv fs tree fuel, main argv fs tree fuel = main [] fs tree fuel) ∧
    main ["--help"] c8fs c8tree 2 =
      some ⟨[(OUTPUT_DIR ++ lc "/c8.html", lc "<p>a</p>")], false, ⟨0, 0, 0, 0, 0⟩, 0⟩ := by
  exact ⟨fun _ _ _ _ => rfl, by decide⟩

/-- C9 counterexample: the document references the stylesheet (first
conjunct) and the stylesheet read fails (second conjunct); the document
text passes through unchanged with the flag clear, but the failure is
not recorded as an error, so the run exits 0 — refuting the claim that
the process exit is nonzero. -/
theorem c9_counterexample_read_failure_exits_zero :
    (cssFindFrom c9doc 0).isSome = true ∧
    inlineCss c9fs = none ∧
    runBuild c9fs 2 [c9path] =
      some ⟨[(OUTPUT_DIR ++ lc "/c9.html", c9doc)], false, ⟨0, 0, 0, 0, 0⟩, 0⟩ := by
  exact ⟨by decide, by decide, by decide⟩

/-- C10 counterexample: writing the first document output fails (first
conjunct); the resulting exception is uncaught, so the run aborts with
nothing recorded in the error statistics and the second document never
processed (no output of it is written) — refuting the claim that the
failure is recorded as an error and the run continues. -/
theorem c10_counterexample_write_failure_aborts_run :
    writeOk c10fs (outPathFor c10a) = false ∧
    runBuild c10fs 2 [c10a, c10b] = some ⟨[], true, ⟨0, 0, 0, 0, 0⟩, 1⟩ := by
  exact ⟨by decide, by decide⟩

/-! ## C3: the exit code of a completed run -/

/-- In any non-crashed outcome of the document loop, the exit code is 1
exactly when the accumulated error total is positive (the final
conditional of main). -/
theorem runBuildAux_exitCode (fs : FS) (fuel : Nat) :
    ∀ (files : List (List Char)) (written : List (List Char × List Char))
      (tot : Totals) (r : RunResult),
      runBuildAux fs fuel files written tot = some r → r.crashed = false →
      r.exitCode = if r.totals.errors > 0 then 1 else 0 := by
  intro files
  induction files with
  | nil =>
    intro written tot r h _
    simp only [runBuildAux, Option.some.injEq] at h
    subst h
    rfl
  | cons f rest ih =>
    intro written tot r h hc
    simp only [runBuildAux] at h
    match hp : processHtmlFile fs fuel f (outPathFor f) with
    | none => rw [hp] at h; exact absurd h (by simp)
    | some (Except.error _) =>
      rw [hp] at h
      simp only [Option.some.injEq] at h
      rw [← h] at hc
      exact absurd hc (by simp)
    | some (Except.ok (text, st)) =>
      rw [hp] at h
      exact ih _ _ r h hc

/-- C3: for every run that completes document processing (the fuel
sufficed and no uncaught exception aborted it), the process exit code
is nonzero exactly when the error count summed over all documents is
positive. -/
theorem c3_exit_nonzero_iff_errors (fs : FS) (fuel : Nat)
    (files : List (List Char)) (r : RunResult)
    (h : runBuild fs fuel files = some r) (hc : r.crashed = false) :
    r.exitCode ≠ 0 ↔ 0 < r.totals.errors := by
  have he := runBuildAux_exitCode fs fuel files [] ⟨0, 0, 0, 0, 0⟩ r h hc
  by_cases hpos : 0 < r.totals.errors
  · rw [he, if_pos hpos]
    exact ⟨fun _ => hpos, fun _ => one_ne_zero⟩
  · rw [he, if_neg hpos]
    simp [hpos]

/-- C3 witness fixture: a document with one skipped reference and no
errors. -/
def c3path : List Char := BASE_DIR ++ lc "/c3.html"

/-- C3 witness document. -/
def c3doc : List Char := lc "<img src=\"a.bmp\">"

/-- C3 witness filesystem: the referenced asset exists but has an
unsupported extension, so the run completes with zero errors. -/
def c3fs : FS :=
  ⟨[(c3path, ⟨c3doc, true⟩), (BASE_DIR ++ lc "/a.bmp", ⟨lc "b", true⟩)], []⟩

/-- C3 witness outcome. -/
def c3res : RunResult :=
  ⟨[(OUTPUT_DIR ++ lc "/c3.html", c3doc)], false, ⟨0, 0, 0, 1, 0⟩, 0⟩

/-- Witness for C3: a concrete completed run with zero errors, to which
the theorem applies and yields exit code 0. -/
theorem c3_exit_nonzero_iff_errors_witness :
    ¬ (c3res.exitCode ≠ 0) ∧ ¬ (0 < c3res.totals.errors) := by
  have h := c3_exit_nonzero_iff_errors c3fs 3 [c3path] c3res (by decide) (by decide)
  exact ⟨fun hne => by exact absurd (h.mp hne) (by decide), by decide⟩

/-! ## C2: pass-through of data URIs and external URLs -/

/-- C2: whenever the reference matched by the current loop iteration
has a src value beginning with the data-URI prefix or an external URL
prefix, the iteration changes nothing: the text is returned
byte-identical, no statistics counter changes, and only the scan
position advances past the match (no resolution is attempted — the
branch is taken before resolveAssetPath is consulted). -/
theorem c2_passthrough_identity (fs : FS) (p text : List Char) (i : Nat)
    (st : Stats) (m : ImgMatch)
    (hm : imgFindFrom text i = some m)
    (hpre : (lc "data:").isPrefixOf m.g2 = true ∨
      (lc "http://").isPrefixOf m.g2 = true ∨
      (lc "https://").isPrefixOf m.g2 = true) :
    imgStep fs p text i st = some (text, m.index + m.full.length, st) := by
  unfold imgStep
  rw [hm]
  rcases hpre with h | h | h
  · simp [h]
  · by_cases hd : (lc "data:").isPrefixOf m.g2 <;> simp [hd, h]
  · by_cases hd : (lc "data:").isPrefixOf m.g2 <;> simp [hd, h]

/-- C2 witness match: the match of the witness text. -/
def c2m : ImgMatch :=
  ⟨1, lc "<img src=\"data:x\">", [], lc "data:x", []⟩

/-- C2 witness text. -/
def c2text : List Char := lc "a<img src=\"data:x\">b"

/-- C2 witness document path. -/
def c2path : List Char := BASE_DIR ++ lc "/c2.html"

/-- Witness for C2: the theorem applied to a concrete text whose match
is a data URI reference. -/
theorem c2_passthrough_identity_witness :
    imgStep ⟨[], []⟩ c2path c2text 0 ⟨0, 0, 0, 0, false⟩ =
      some (c2text, 19, ⟨0, 0, 0, 0, false⟩) := by
  have h := c2_passthrough_identity ⟨[], []⟩ c2path c2text 0 ⟨0, 0, 0, 0, false⟩
    c2m (by decide) (Or.inl (by decide))
  exact h

/-! ## C1: the encoding policy for resolved references -/

/-- C1: for a resolved (non-pass-through) reference, which encoder runs
is encodingChoice applied to the lowercase extension and byte size of
the resolved asset — a pure function of those two values.  When the
choice is inline SVG and the read yields truthy content, the entire
matched tag is replaced by the cleaned fragment and svgsInlined is
incremented; when the choice is base64 (oversized SVG and raster
extensions land in the same branch) and the encoder succeeds, the tag
is rewritten with the data URI and the shared pngsEncoded bucket is
incremented; when the extension is unsupported, the text is unchanged
and only skipped is incremented — the error counter is untouched. -/
theorem c1_encoding_choice_pure (fs : FS) (p text : List Char) (i : Nat)
    (st : Stats) (m : ImgMatch) (rp : List Char)
    (hm : imgFindFrom text i = some m)
    (hd : (lc "data:").isPrefixOf m.g2 = false)
    (hh : (lc "http://").isPrefixOf m.g2 = false)
    (hs : (lc "https://").isPrefixOf m.g2 = false)
    (hres : resolveAssetPath fs p m.g2 = some rp) :
    (∀ c, encodingChoice (extnameLower rp) (getFileSize fs rp) =
        EncodingChoice.inlineSvg →
      readSvgContent fs rp = some c → c.isEmpty = false →
      imgStep fs p text i st = some (replaceFirstStr text m.full c,
        m.index + m.full.length,
        { st with svgsInlined := st.svgsInlined + 1 })) ∧
    (∀ uri, encodingChoice (extnameLower rp) (getFileSize fs rp) =
        EncodingChoice.base64 →
      imageToBase64 fs rp = some uri →
      imgStep fs p text i st =
        some (replaceFirstStr text m.full (base64Tag m.g1 uri m.g3),
          m.index + m.full.length,
          { st with pngsEncoded := st.pngsEncoded + 1 })) ∧
    (encodingChoice (extnameLower rp) (getFileSize fs rp) =
        EncodingChoice.skip →
      imgStep fs p text i st = some (text, m.index + m.full.length,
        { st with skipped := st.skipped + 1 })) := by
  refine ⟨?_, ?_, ?_⟩
  · intro c hc hr hce
    unfold encodingChoice at hc
    split_ifs at hc with h1 h2
    simp only [imgStep, hm]
    simp [hd, hh, hs, hres, h1, h2, hr, hce]
  · intro uri hc hb
    unfold encodingChoice at hc
    split_ifs at hc with h1 h2 h3
    · simp only [imgStep, hm]
      simp [hd, hh, hs, hres, h1, h2, hb]
    · simp only [imgStep, hm]
      have h3m : extnameLower rp ∈ rasterExts := by simpa using h3
      simp [hd, hh, hs, hres, h1, h3m, hb]
  · intro hc
    unfold encodingChoice at hc
    split_ifs at hc with h1 h2 h3
    simp only [imgStep, hm]
    have h3m : extnameLower rp ∉ rasterExts := by simpa using h3
    simp [hd, hh, hs, hres, h1, h3m]

/-- C1 witness fixture: document path. -/
def c1path : List Char := BASE_DIR ++ lc "/c1.html"

/-- C1 witness text. -/
def c1text : List Char := lc "<img src=\"i.svg\">"

/-- C1 witness match. -/
def c1m : ImgMatch := ⟨0, c1text, [], lc "i.svg", []⟩

/-- C1 witness filesystem: a small readable SVG. -/
def c1fs : FS := ⟨[(BASE_DIR ++ lc "/i.svg", ⟨lc "<svg>i</svg>", true⟩)], []⟩

/-- Witness for C1: the theorem at a concrete resolved small SVG; its
inline-SVG conjunct rewrites the whole tag and bumps svgsInlined. -/
theorem c1_encoding_choice_pure_witness :
    imgStep c1fs c1path c1text 0 ⟨0, 0, 0, 0, false⟩ =
      some (lc "<svg>i</svg>", 17, ⟨1, 0, 0, 0, false⟩) := by
  have h := (c1_encoding_choice_pure c1fs c1path c1text 0 ⟨0, 0, 0, 0, false⟩
    c1m (BASE_DIR ++ lc "/i.svg") (by decide) (by decide) (by decide) (by decide)
    (by decide)).1 (lc "<svg>i</svg>") (by decide) (by decide) (by decide)
  exact h.trans (by decide)

/-! ## C6 amended: what the base64 rewrite preserves -/

/-- C6 amended: for every reference rewritten via base64 (oversized SVG
or raster extension, successful encode), the rewritten tag is the tag
opener followed by a single space, group 1 (the attribute text before
src) verbatim, the src attribute with the data URI between double
quotes, group 3 (the attribute text after the closing src quote)
verbatim, and the closing gt.  Attributes before and after src are thus
preserved verbatim, but the whitespace after the tag opener is
collapsed to one space and the quotes around the src value are always
rewritten as double quotes, whatever the original used. -/
theorem c6_amended_base64_rewrite_shape (fs : FS) (p text : List Char)
    (i : Nat) (st : Stats) (m : ImgMatch) (rp uri : List Char)
    (hm : imgFindFrom text i = some m)
    (hd : (lc "data:").isPrefixOf m.g2 = false)
    (hh : (lc "http://").isPrefixOf m.g2 = false)
    (hs : (lc "https://").isPrefixOf m.g2 = false)
    (hres : resolveAssetPath fs p m.g2 = some rp)
    (hx : (extnameLower rp = lc ".svg" ∧ MAX_SVG_SIZE < getFileSize fs rp) ∨
      rasterExts.contains (extnameLower rp) = true)
    (hb : imageToBase64 fs rp = some uri) :
    imgStep fs p text i st = some (replaceFirstStr text m.full
      (lc "<img " ++ m.g1 ++ lc "src=\"" ++ uri ++ lc "\"" ++ m.g3 ++ lc ">"),
      m.index + m.full.length,
      { st with pngsEncoded := st.pngsEncoded + 1 }) := by
  rcases hx with ⟨h1, h2⟩ | h3
  · have h2n : ¬ getFileSize fs rp ≤ MAX_SVG_SIZE := Nat.not_le.mpr h2
    simp only [imgStep, hm]
    simp [hd, hh, hs, hres, h1, h2n, hb, base64Tag]
  · have h1 : extnameLower rp ≠ lc ".svg" := by
      intro he
      rw [he] at h3
      exact absurd h3 (by decide)
    have h3m : extnameLower rp ∈ rasterExts := by simpa using h3
    simp only [imgStep, hm]
    simp [hd, hh, hs, hres, h1, h3m, hb, base64Tag]

/-- C6 witness match: the match of the C6 document. -/
def c6m : ImgMatch := ⟨0, c6doc, [], lc "pic.png", lc " alt=\"x\""⟩

/-- Witness for C6 amended: the theorem at the concrete C6 document;
the alt attribute (group 3) survives verbatim while the double spaces
and single quotes are normalized. -/
theorem c6_amended_base64_rewrite_shape_witness :
    imgStep c6fs c6path c6doc 0 ⟨0, 0, 0, 0, false⟩ =
      some (c6result, 28, ⟨0, 1, 0, 0, false⟩) := by
  have h := c6_amended_base64_rewrite_shape c6fs c6path c6doc 0 ⟨0, 0, 0, 0, false⟩
    c6m (BASE_DIR ++ lc "/pic.png") c6uri (by decide) (by decide) (by decide)
    (by decide) (by decide) (Or.inr (by decide)) (by decide)
  exact h.trans (by decide)

/-! ## C9 amended: stylesheet read failure is local and silent -/

/-- C9 amended: when the shared stylesheet cannot be read, the CSS
phase returns the document text unchanged with the inlined flag clear —
whether or not the document references the stylesheet.  The failure is
only logged: it is not recorded in the error statistics, so by itself
it leaves the process exit at 0 (shown concretely by the C9
counterexample). -/
theorem c9_amended_read_failure_no_op (fs : FS) (text : List Char)
    (h : inlineCss fs = none) :
    cssPhase fs text = (text, false) := by
  unfold cssPhase
  rw [h]
  split <;> rfl

/-- Witness for C9 amended: an empty filesystem (the stylesheet read
fails) leaves a stylesheet-referencing document unchanged. -/
theorem c9_amended_read_failure_no_op_witness :
    cssPhase ⟨[], []⟩ c9doc = (c9doc, false) :=
  c9_amended_read_failure_no_op ⟨[], []⟩ c9doc (by decide)

/-! ## C10 amended: a write failure is an uncaught exception -/

/-- C10 amended: when writing a document output fails, processHtmlFile
throws (nothing in the source catches the writeFileSync exception); the
exception propagates through the forEach of main, so the run aborts at
that document — the failure is not recorded in the error counters and
the remaining documents are not processed. -/
theorem c10_amended_write_failure_uncaught (fs : FS) (fuel : Nat)
    (p t0 t2 : List Char) (st : Stats)
    (hr : readFile fs p = some t0)
    (hl : imgLoop fs p fuel (cssPhase fs t0).1 0
      ⟨0, 0, 0, 0, (cssPhase fs t0).2⟩ = some (t2, st))
    (hw : writeOk fs (outPathFor p) = false) :
    processHtmlFile fs fuel p (outPathFor p) = some (Except.error ()) ∧
    ∀ rest written tot, runBuildAux fs fuel (p :: rest) written tot =
      some ⟨written, true, tot, 1⟩ := by
  have hproc : processHtmlFile fs fuel p (outPathFor p) = some (Except.error ()) := by
    unfold processHtmlFile
    rw [hr]
    simp only []
    rw [hl, hw]
    simp
  refine ⟨hproc, ?_⟩
  intro rest written tot
  simp only [runBuildAux]
  rw [hproc]

/-- Witness for C10 amended: the theorem at the concrete C10
filesystem. -/
theorem c10_amended_write_failure_uncaught_witness :
    processHtmlFile c10fs 2 c10a (outPathFor c10a) = some (Except.error ()) ∧
    runBuildAux c10fs 2 [c10a, c10b] [] ⟨0, 0, 0, 0, 0⟩ =
      some ⟨[], true, ⟨0, 0, 0, 0, 0⟩, 1⟩ := by
  have h := c10_amended_write_failure_uncaught c10fs 2 c10a (lc "<p>a</p>")
    (lc "<p>a</p>") ⟨0, 0, 0, 0, false⟩ (by decide) (by decide) (by decide)
  exact ⟨h.1, h.2 [c10b] [] ⟨0, 0, 0, 0, 0⟩⟩

/-! ## C5 amended: the stylesheet replacement is global -/

/-- A replacement string containing no dollar character expands to
itself. -/
theorem expandReplAux_no_dollar (matched before after : List Char)
    (groups : List (List Char)) :
    ∀ (fuel : Nat) (repl : List Char), '$' ∉ repl →
      expandReplAux matched before after groups fuel repl = repl := by
  intro fuel
  induction fuel with
  | zero => intro repl _; rfl
  | succ f ih =>
    intro repl h
    match repl with
    | [] => rfl
    | c :: rest =>
      have hc : c ≠ '$' := fun e => h (e ▸ List.mem_cons_self c rest)
      have hr : '$' ∉ rest := fun e => h (List.mem_cons_of_mem c e)
      simp only [expandReplAux, if_neg hc]
      rw [ih rest hr]

/-- The splice that inserts one fixed replacement verbatim at every
match of a match list, keeping the text between matches: the shape the
global replace produces when each expansion is the replacement
itself. -/
def styleSplice (orig repl : List Char) : Nat → List (Nat × CssM) → List Char
  | pos, [] => orig.drop pos
  | pos, (i, m) :: rest =>
    (orig.drop pos).take (i - pos) ++ repl ++ styleSplice orig repl (i + m.len) rest

/-- With a dollar-free replacement, the replace splice inserts the
replacement itself, verbatim, at every match of the list. -/
theorem spliceMatches_no_dollar (orig repl : List Char) (h : '$' ∉ repl) :
    ∀ (pos : Nat) (ms : List (Nat × CssM)),
      spliceMatches orig repl pos ms = styleSplice orig repl pos ms := by
  intro pos ms
  induction ms generalizing pos with
  | nil => rfl
  | cons x rest ih =>
    obtain ⟨i, m⟩ := x
    simp only [spliceMatches, styleSplice]
    unfold expandRepl
    rw [expandReplAux_no_dollar _ _ _ _ _ _ h]
    rw [ih]

/-- C5 amended: the replace call uses the global regex, so for EVERY
document in which the stylesheet-link pattern matches, every match
found by the scan (the whole of cssFindAll, not at most one) is
replaced: the output is the text with the inline style block carrying
the loaded content spliced, verbatim, in place of each matched link
reference, and the cssInlined stat — a boolean, set once per
document — is true.  The stylesheet content is required non-empty (the
source tests truthiness) and free of dollar characters (which the
replace algorithm would expand). -/
theorem c5_amended_replace_all (fs : FS) (text css : List Char)
    (hread : inlineCss fs = some css)
    (h1 : css.isEmpty = false) (h2 : '$' ∉ css)
    (hmatch : (cssFindFrom text 0).isSome = true) :
    cssPhase fs text =
      (styleSplice text (c5sty css) 0 (cssFindAll text), true) := by
  have hnod : ('$' : Char) ∉ lc "<style>\n" ++ css ++ lc "\n    </style>" := by
    intro hm
    rcases List.mem_append.mp hm with hm1 | hmc
    · rcases List.mem_append.mp hm1 with hma | hmb
      · exact absurd hma (by decide)
      · exact h2 hmb
    · exact absurd hmc (by decide)
  unfold cssPhase
  rw [hmatch, hread]
  simp only [if_true, h1, Bool.false_eq_true, if_false]
  unfold cssReplaceAll
  rw [spliceMatches_no_dollar _ _ hnod]
  rfl

/-- Witness for C5 amended: the theorem at the two-link document and a
concrete one-character stylesheet; both link references become style
blocks. -/
theorem c5_amended_replace_all_witness :
    cssPhase (c5mkfs (lc "p")) c5doc =
      (c5sty (lc "p") ++ lc "<p>x</p>" ++ c5sty (lc "p"), true) :=
  (c5_amended_replace_all (c5mkfs (lc "p")) c5doc (lc "p") (by decide) (by decide)
    (by decide) (by decide)).trans (by decide)

/-! ## C7 amended: scan progress and conditional termination

The loop cannot be proved terminating unconditionally (the C7
counterexample shows an inlined SVG fragment is re-processed as a fresh
reference; a self-referential SVG makes the rewrite grow forever).
What does hold: every match of the img pattern spans at least 13
characters, each iteration advances the scan position past the current
match, and whenever no iteration substitutes (every reference passed
through, missing, failing, or skipped), the scan position strictly
grows through an unchanged text, so the loop terminates with fuel
proportional to the document length. -/

/-- A greedy run never exceeds the text length. -/
theorem maxRun_le (p : Char → Bool) : ∀ s : List Char, maxRun p s ≤ s.length := by
  intro s
  induction s with
  | nil => exact Nat.le_refl 0
  | cons c t ih =>
    simp only [maxRun, List.takeWhile]
    split
    · simpa [maxRun] using Nat.succ_le_succ (by simpa [maxRun] using ih)
    · exact Nat.zero_le _

/-- A matched case-insensitive literal fits inside the text. -/
theorem ciPrefix_length : ∀ (pat s : List Char), ciPrefix pat s = true →
    pat.length ≤ s.length := by
  intro pat
  induction pat with
  | nil => intro s _; exact Nat.zero_le _
  | cons p ps ih =>
    intro s h
    cases s with
    | nil => exact absurd h (by simp [ciPrefix])
    | cons c cs =>
      simp only [ciPrefix, Bool.and_eq_true] at h
      exact Nat.succ_le_succ (ih cs h.2)

/-- A successful descending search succeeds at some extent within the
range. -/
theorem searchDown_some {α : Type} (f : Nat → Option α) :
    ∀ (n : Nat) (r : α), searchDown f n = some r → ∃ m, m ≤ n ∧ f m = some r := by
  intro n
  induction n with
  | zero => intro r h; exact ⟨0, Nat.le_refl 0, h⟩
  | succ k ih =>
    intro r h
    simp only [searchDown] at h
    cases hf : f (k + 1) with
    | some v => rw [hf] at h; exact ⟨k + 1, Nat.le_refl _, hf ▸ h⟩
    | none =>
      rw [hf] at h
      obtain ⟨m, hm, hfm⟩ := ih r h
      exact ⟨m, Nat.le_succ_of_le hm, hfm⟩

/-- The tail of the img pattern after the src-equals spans at least
four characters and fits inside its input. -/
theorem matchSrcTail_bounds (s : List Char) (g2 g3 : List Char) (tl : Nat)
    (h : matchSrcTail s = some (g2, g3, tl)) : 4 ≤ tl ∧ tl ≤ s.length := by
  cases s with
  | nil => exact absurd h (by simp [matchSrcTail])
  | cons q rest =>
    simp only [matchSrcTail] at h
    split_ifs at h with hq hg0 hgt
    · -- surviving branch: quote, nonempty g2, closing gt present
      cases hd : (rest.drop ((rest.takeWhile (fun c => c ≠ '"' ∧ c ≠ sq)).length)).head? with
      | none => rw [hd] at h; exact absurd h (by simp)
      | some q2 =>
        rw [hd] at h
        simp only at h
        split_ifs at h with hq2
        simp only [Option.some.injEq, Prod.mk.injEq] at h
        obtain ⟨he2, he3, hetl⟩ := h
        set G2 := rest.takeWhile (fun c => c ≠ '"' ∧ c ≠ sq) with hG2
        set R2 := rest.drop (G2.length + 1) with hR2
        set G3 := R2.takeWhile (fun c => c ≠ '>') with hG3
        have hg2len : 1 ≤ G2.length := Nat.one_le_iff_ne_zero.mpr hg0
        have hd_ne : rest.drop G2.length ≠ [] := by
          intro he
          rw [he] at hd
          exact absurd hd (by simp)
        have hlt : G2.length < rest.length := by
          by_contra hle
          exact hd_ne (List.drop_eq_nil_of_le (Nat.le_of_not_lt hle))
        have hgt_ne : R2.drop G3.length ≠ [] := by
          intro he
          rw [he] at hgt
          exact absurd hgt (by simp)
        have hlt2 : G3.length < R2.length := by
          by_contra hle
          exact hgt_ne (List.drop_eq_nil_of_le (Nat.le_of_not_lt hle))
        have hR2len : R2.length = rest.length - (G2.length + 1) := by
          rw [hR2]; exact List.length_drop _ _
        constructor
        · omega
        · simp only [List.length_cons]
          omega
    · -- closing gt absent: both match arms are none
      cases hd : (rest.drop ((rest.takeWhile (fun c => c ≠ '"' ∧ c ≠ sq)).length)).head? with
      | none => rw [hd] at h; exact absurd h (by simp)
      | some q2 =>
        rw [hd] at h
        simp only [ite_self] at h
        exact absurd h (by simp)



/-- Bounds for a match produced with group 1 present: at least 13
characters, fitting inside the text from the tag opener on. -/
theorem imgTry1_bounds (u : List Char) (k m : Nat) (r0 : ImgM) (hk : 1 ≤ k)
    (h : (if m = 0 then none
      else
        match (u.drop (m - 1)).head? with
        | some w =>
          if isWs w = true ∧ ciPrefix (lc "src=") (u.drop m) = true then
            match matchSrcTail (u.drop (m + 4)) with
            | some (g2, g3, tl) => some (⟨u.take m, g2, g3, 4 + k + m + 4 + tl⟩ : ImgM)
            | none => none
          else none
        | none => none) = some r0) :
    13 ≤ r0.len ∧ r0.len ≤ 4 + k + u.length := by
  split_ifs at h with hm0
  cases hh : (u.drop (m - 1)).head? with
  | none => rw [hh] at h; exact absurd h (by simp)
  | some w =>
    rw [hh] at h
    simp only at h
    split_ifs at h with hws
    cases hmt : matchSrcTail (u.drop (m + 4)) with
    | none => rw [hmt] at h; exact absurd h (by simp)
    | some v =>
      obtain ⟨g2, g3, tl⟩ := v
      rw [hmt] at h
      simp only [Option.some.injEq] at h
      obtain ⟨hb4, hble⟩ := matchSrcTail_bounds _ _ _ _ hmt
      have h4 : (lc "src=").length ≤ (u.drop m).length := ciPrefix_length _ _ hws.2
      have hp4 : (lc "src=").length = 4 := rfl
      have e3 : (u.drop (m + 4)).length = u.length - (m + 4) := List.length_drop _ _
      have e4 : (u.drop m).length = u.length - m := List.length_drop _ _
      rw [← h]
      simp only
      constructor <;> omega

/-- Bounds for a match produced with group 1 absent. -/
theorem imgTryAbsent_bounds (u : List Char) (k : Nat) (r : ImgM) (hk : 1 ≤ k)
    (hsrc : ciPrefix (lc "src=") u = true)
    (h : (match matchSrcTail (u.drop 4) with
      | some (g2, g3, tl) => some (⟨[], g2, g3, 4 + k + 4 + tl⟩ : ImgM)
      | none => none) = some r) :
    13 ≤ r.len ∧ r.len ≤ 4 + k + u.length := by
  cases hmt : matchSrcTail (u.drop 4) with
  | none => rw [hmt] at h; exact absurd h (by simp)
  | some v =>
    obtain ⟨g2, g3, tl⟩ := v
    rw [hmt] at h
    simp only [Option.some.injEq] at h
    obtain ⟨hb4, hble⟩ := matchSrcTail_bounds _ _ _ _ hmt
    have h4 : (lc "src=").length ≤ u.length := ciPrefix_length _ _ hsrc
    have hp4 : (lc "src=").length = 4 := rfl
    have e3 : (u.drop 4).length = u.length - 4 := List.length_drop _ _
    rw [← h]
    simp only
    constructor <;> omega

/-- Every match of the img pattern spans at least 13 characters and
fits inside the text at its position. -/
theorem imgTryAt_bounds (s : List Char) (r : ImgM) (h : imgTryAt s = some r) :
    13 ≤ r.len ∧ r.len ≤ s.length := by
  simp only [imgTryAt] at h
  split_ifs at h with hci hk hsrc
  · have hs4 : (lc "<img").length ≤ s.length := ciPrefix_length _ _ hci
    have hp4 : (lc "<img").length = 4 := rfl
    have hkle : maxRun isWs (s.drop 4) ≤ (s.drop 4).length := maxRun_le _ _
    have hk1 : 1 ≤ maxRun isWs (s.drop 4) := Nat.one_le_iff_ne_zero.mpr hk
    have e1 : (s.drop 4).length = s.length - 4 := List.length_drop _ _
    have e2 : ((s.drop 4).drop (maxRun isWs (s.drop 4))).length =
        (s.drop 4).length - maxRun isWs (s.drop 4) := List.length_drop _ _
    split at h
    · next r0 hsd =>
      obtain ⟨m, _, htry⟩ := searchDown_some _ _ _ hsd
      have hb := imgTry1_bounds _ _ m r0 hk1 htry
      have hr : r0 = r := by injection h
      rw [← hr]
      omega
    · next hsd =>
      have hb := imgTryAbsent_bounds _ _ r hk1 hsrc h
      omega
  · have hs4 : (lc "<img").length ≤ s.length := ciPrefix_length _ _ hci
    have hp4 : (lc "<img").length = 4 := rfl
    have hkle : maxRun isWs (s.drop 4) ≤ (s.drop 4).length := maxRun_le _ _
    have hk1 : 1 ≤ maxRun isWs (s.drop 4) := Nat.one_le_iff_ne_zero.mpr hk
    have e1 : (s.drop 4).length = s.length - 4 := List.length_drop _ _
    have e2 : ((s.drop 4).drop (maxRun isWs (s.drop 4))).length =
        (s.drop 4).length - maxRun isWs (s.drop 4) := List.length_drop _ _
    split at h
    · next r0 hsd =>
      obtain ⟨m, _, htry⟩ := searchDown_some _ _ _ hsd
      have hb := imgTry1_bounds _ _ m r0 hk1 htry
      have hr : r0 = r := by injection h
      rw [← hr]
      omega
    · next hsd => exact absurd h (by simp)



/-- The scan returns a position at or after its start, within the
text, at which the pattern matches. -/
theorem imgFindAux_facts : ∀ (s : List Char) (p q : Nat) (r : ImgM),
    imgFindAux s p = some (q, r) →
    p ≤ q ∧ q - p ≤ s.length ∧ imgTryAt (s.drop (q - p)) = some r := by
  intro s
  induction s with
  | nil =>
    intro p q r h
    simp only [imgFindAux] at h
    rw [show imgTryAt [] = none from by decide] at h
    exact absurd h (by simp)
  | cons c rest ih =>
    intro p q r h
    simp only [imgFindAux] at h
    cases ht : imgTryAt (c :: rest) with
    | some v =>
      rw [ht] at h
      simp only [Option.some.injEq, Prod.mk.injEq] at h
      obtain ⟨hq, hr⟩ := h
      subst hq
      subst hr
      exact ⟨Nat.le_refl p, by simp, by simpa using ht⟩
    | none =>
      rw [ht] at h
      obtain ⟨h1, h2, h3⟩ := ih (p + 1) q r h
      refine ⟨Nat.le_of_succ_le h1, ?_, ?_⟩
      · simp only [List.length_cons]
        omega
      · have hqp : q - p = (q - (p + 1)) + 1 := by omega
        rw [hqp]
        simpa using h3

/-- exec facts: the match starts at or after lastIndex, spans at least
13 characters, and ends within the text. -/
theorem imgFindFrom_facts (text : List Char) (i : Nat) (m : ImgMatch)
    (h : imgFindFrom text i = some m) :
    i ≤ m.index ∧ 13 ≤ m.full.length ∧ m.index + m.full.length ≤ text.length := by
  unfold imgFindFrom at h
  cases hf : imgFindAux (text.drop i) i with
  | none => rw [hf] at h; exact absurd h (by simp)
  | some v =>
    obtain ⟨q, r⟩ := v
    rw [hf] at h
    simp only [Option.some.injEq] at h
    obtain ⟨h1, h2, h3⟩ := imgFindAux_facts _ _ _ _ hf
    have hdd : (text.drop i).drop (q - i) = text.drop q := by
      rw [List.drop_drop]
      congr 1
      omega
    rw [hdd] at h3
    have hb := imgTryAt_bounds _ _ h3
    have hlen : (text.drop q).length = text.length - q := List.length_drop _ _
    have hdi : (text.drop i).length = text.length - i := List.length_drop _ _
    have hfull : m.full = (text.drop q).take r.len := by rw [← h]
    have hidx : m.index = q := by rw [← h]
    have hfl : m.full.length = r.len := by
      rw [hfull, List.length_take]
      omega
    refine ⟨by omega, by omega, by omega⟩

/-- exec finds nothing once lastIndex is at or past the end. -/
theorem imgFindFrom_none_past_end (text : List Char) (i : Nat)
    (h : text.length ≤ i) : imgFindFrom text i = none := by
  unfold imgFindFrom
  rw [List.drop_eq_nil_of_le h]
  simp [imgFindAux, imgTryAt, ciPrefix, lc]



/-- Whether processing a resolved asset leaves the text unchanged
(empty or failing read, failing encode, or unsupported extension). -/
def nonSubResolved (fs : FS) (rp : List Char) : Bool :=
  if extnameLower rp = lc ".svg" then
    if getFileSize fs rp ≤ MAX_SVG_SIZE then
      match readSvgContent fs rp with
      | some c => c.isEmpty
      | none => true
    else (imageToBase64 fs rp).isNone
  else if rasterExts.contains (extnameLower rp) then (imageToBase64 fs rp).isNone
  else true

/-- Whether processing a match leaves the text unchanged: pass-through
prefix, unresolvable path, or a non-substituting resolved asset. -/
def nonSubstituting (fs : FS) (p : List Char) (m : ImgMatch) : Bool :=
  (lc "data:").isPrefixOf m.g2 || (lc "http://").isPrefixOf m.g2 ||
  (lc "https://").isPrefixOf m.g2 ||
  (resolveAssetPath fs p m.g2).elim true (nonSubResolved fs)

/-- A non-substituting iteration returns the text unchanged and
advances the scan position to the end of the match. -/
theorem imgStep_nonsub (fs : FS) (p text : List Char) (i : Nat) (st : Stats)
    (m : ImgMatch) (hm : imgFindFrom text i = some m)
    (hns : nonSubstituting fs p m = true) :
    ∃ st2, imgStep fs p text i st = some (text, m.index + m.full.length, st2) := by
  by_cases hd : (lc "data:").isPrefixOf m.g2 = true
  · refine ⟨st, ?_⟩
    simp only [imgStep, hm]
    simp [hd]
  by_cases hh : (lc "http://").isPrefixOf m.g2 = true
  · refine ⟨st, ?_⟩
    simp only [imgStep, hm]
    simp [Bool.eq_false_iff.mpr hd, hh]
  by_cases hs : (lc "https://").isPrefixOf m.g2 = true
  · refine ⟨st, ?_⟩
    simp only [imgStep, hm]
    simp [Bool.eq_false_iff.mpr hd, Bool.eq_false_iff.mpr hh, hs]
  have hd2 : (lc "data:").isPrefixOf m.g2 = false := Bool.eq_false_iff.mpr hd
  have hh2 : (lc "http://").isPrefixOf m.g2 = false := Bool.eq_false_iff.mpr hh
  have hs2 : (lc "https://").isPrefixOf m.g2 = false := Bool.eq_false_iff.mpr hs
  simp only [nonSubstituting, hd2, hh2, hs2, Bool.false_or] at hns
  cases hres : resolveAssetPath fs p m.g2 with
  | none =>
    refine ⟨{ st with errors := st.errors + 1 }, ?_⟩
    simp only [imgStep, hm]
    simp [hd2, hh2, hs2, hres]
  | some rp =>
    rw [hres] at hns
    simp only [Option.elim, nonSubResolved] at hns
    by_cases hext : extnameLower rp = lc ".svg"
    · rw [if_pos hext] at hns
      by_cases hsize : getFileSize fs rp ≤ MAX_SVG_SIZE
      · rw [if_pos hsize] at hns
        cases hr : readSvgContent fs rp with
        | none =>
          refine ⟨{ st with errors := st.errors + 1 }, ?_⟩
          simp only [imgStep, hm]
          simp [hd2, hh2, hs2, hres, hext, hsize, hr]
        | some c =>
          rw [hr] at hns
          have hce : c.isEmpty = true := hns
          have hceq : c = [] := by simpa using hce
          refine ⟨{ st with errors := st.errors + 1 }, ?_⟩
          simp only [imgStep, hm]
          simp [hd2, hh2, hs2, hres, hext, hsize, hr, hce, hceq]
      · rw [if_neg hsize] at hns
        have hb : imageToBase64 fs rp = none := by simpa using hns
        refine ⟨{ st with errors := st.errors + 1 }, ?_⟩
        simp only [imgStep, hm]
        simp [hd2, hh2, hs2, hres, hext, hsize, hb]
    · rw [if_neg hext] at hns
      by_cases hras : rasterExts.contains (extnameLower rp) = true
      · rw [if_pos hras] at hns
        have hb : imageToBase64 fs rp = none := by simpa using hns
        have hmem : extnameLower rp ∈ rasterExts := by simpa using hras
        refine ⟨{ st with errors := st.errors + 1 }, ?_⟩
        simp only [imgStep, hm]
        simp [hd2, hh2, hs2, hres, hext, hmem, hb]
      · have hmem : extnameLower rp ∉ rasterExts := by simpa using hras
        refine ⟨{ st with skipped := st.skipped + 1 }, ?_⟩
        simp only [imgStep, hm]
        simp [hd2, hh2, hs2, hres, hext, hmem]

/-- When every match of the text is non-substituting, the loop
finishes within fuel linear in the text length: each iteration
advances the scan position by at least 13. -/
theorem imgLoop_term_aux (fs : FS) (p text : List Char)
    (H : ∀ j, j ≤ text.length →
      Option.all (nonSubstituting fs p) (imgFindFrom text j) = true) :
    ∀ (fuel i : Nat) (st : Stats), text.length ≤ 13 * fuel + i →
      (imgLoop fs p (fuel + 1) text i st).isSome := by
  intro fuel
  induction fuel with
  | zero =>
    intro i st hle
    have hnone : imgFindFrom text i = none :=
      imgFindFrom_none_past_end text i (by omega)
    simp [imgLoop, imgStep, hnone]
  | succ f ih =>
    intro i st hle
    cases hm : imgFindFrom text i with
    | none => simp [imgLoop, imgStep, hm]
    | some m =>
      have hfacts := imgFindFrom_facts text i m hm
      have hns : nonSubstituting fs p m = true := by
        have hHi := H i (by omega)
        rw [hm] at hHi
        simpa [Option.all] using hHi
      obtain ⟨st3, hstep⟩ := imgStep_nonsub fs p text i st m hm hns
      have hred : imgLoop fs p (f + 1 + 1) text i st =
          imgLoop fs p (f + 1) text (m.index + m.full.length) st3 := by
        simp only [imgLoop, hstep]
      rw [hred]
      exact ih (m.index + m.full.length) st3 (by omega)


/-- C7 amended: whenever every match of the image pattern in the
document is non-substituting (pass-through prefix, unresolvable path,
failing or empty read, failing encode, or unsupported extension — the
cases in which the iteration leaves the text unchanged), the rewrite
loop terminates: fuel linear in the document length suffices, because
every match spans at least 13 characters and each iteration advances
the scan position past its match.  Substituting iterations do not enjoy
this bound: an inlined SVG fragment may reintroduce image-reference
text that is re-processed as a fresh reference (the C7
counterexample). -/
theorem c7_amended_conditional_termination (fs : FS) (p text : List Char) (st : Stats) (fuel : Nat)
    (H : ∀ j, j ≤ text.length →
      Option.all (nonSubstituting fs p) (imgFindFrom text j) = true)
    (hf : text.length ≤ 13 * fuel) :
    (imgLoop fs p (fuel + 1) text 0 st).isSome :=
  imgLoop_term_aux fs p text H fuel 0 st (by omega)

/-- C7 witness text: a single reference that does not resolve. -/
def c7wtext : List Char := lc "<p><img src=\"miss.png\"></p>"

/-- Witness for C7 amended: the theorem at a concrete document whose
only reference is missing (the loop terminates with linear fuel). -/
theorem c7_amended_conditional_termination_witness :
    (imgLoop ⟨[], []⟩ (BASE_DIR ++ lc "/w.html") 4 c7wtext 0 ⟨0, 0, 0, 0, false⟩).isSome :=
  c7_amended_conditional_termination ⟨[], []⟩ (BASE_DIR ++ lc "/w.html") c7wtext ⟨0, 0, 0, 0, false⟩ 3
    (by decide) (by decide)

end BuildEmbedded
